import Mathlib

/-!
Shallow embedding of the node-work-queue repository (depeele/node-work-queue).

The repository contains two executor variants:

* `src/work-queue.js` (instance variant): `Queue` objects with `push`, `pop`
  (tail), `shift` (head), `run`, `empty`, `length`.  Task bodies signal
  completion by emitting a `'complete'` event; `run` registers the listener
  with `once`, so only the first emission is observed.
* `src/queue.js` (plain-callback variant): `addTask` / `next`; the body
  receives the continuation callback directly, with no once-guard.

JavaScript values that the queue inspects are modelled by `JSVal` (objects by
reference identity).  A task body is modelled by the finite sequence of
completion signals `(err, res)` it emits when invoked with the run state; an
empty sequence models a body that never signals (stalls the chain).  Executor
behaviour is captured as a trace of `Event`s: body dispatches, completion
policy evaluations, and `onStop` deliveries (with the exact arguments the
source passes).
-/

namespace WorkQueue

/-- JavaScript values relevant to the queue: `undefined`, `null`, booleans,
numbers, strings, and objects identified by reference. -/
inductive JSVal where
  | vUndefined
  | vNull
  | vBool (b : Bool)
  | vNum (n : Int)
  | vStr (s : String)
  | vObj (id : Nat)
deriving DecidableEq, Repr

/-- Strict equality test `v === false` from the source
(`task.complete.call(...) === false`). -/
def jsIsFalse : JSVal → Bool
  | .vBool false => true
  | _ => false

/-- A task body: given the run state, the sequence of completion signals
`(err, res)` it emits, in order.  `[]` models a body that never signals. -/
abbrev TaskBody := JSVal → List (JSVal × JSVal)

/-- A completion policy: `complete(state, err, res)` returning a JS value. -/
abbrev CompleteFn := JSVal → JSVal → JSVal → JSVal

/-- The default completion policy installed by `push` / `addTask` when none is
supplied: `function(state, err, res) { return true; }`. -/
def defaultComplete : CompleteFn := fun _ _ _ => JSVal.vBool true

/-- A `Task` from `work-queue.js`: id, label, body (`run`), and completion
policy (`complete`). -/
structure Task where
  tid : Nat
  label : String
  run : TaskBody
  complete : CompleteFn

/-- A `Queue` from `work-queue.js`: the pending task array and the id
counter `tid`. -/
structure Queue where
  queue : List Task
  tid : Nat

/-- `Queue.create()`: fresh queue with empty task array and counter 0. -/
def Queue.create : Queue := { queue := [], tid := 0 }

/-- An argument passed where a function is expected: either an actual
function, or any non-function JS value (for the `typeof x !== 'function'`
checks in the source). -/
inductive JSArg (α : Type) where
  | fn (f : α)
  | nonFn (v : JSVal)

/-- `Queue.prototype.push(run, complete, label)`: throws if `run` is not a
function; replaces a missing or non-function `complete` by the default
policy; assigns `++this.tid` as the task id; appends the task. -/
def Queue.push (q : Queue) (run : JSArg TaskBody)
    (complete : Option (JSArg CompleteFn)) (label : Option String) :
    Except String Queue :=
  match run with
  | .nonFn _ => Except.error "A task must have an 'run' function"
  | .fn body =>
    let comp :=
      match complete with
      | some (.fn c) => c
      | _ => defaultComplete
    let newTid := q.tid + 1
    let lbl :=
      match label with
      | some l => if l = "" then "task #" ++ toString newTid else l
      | none => "task #" ++ toString newTid
    Except.ok
      { queue := q.queue ++ [{ tid := newTid, label := lbl, run := body, complete := comp }],
        tid := newTid }

/-- A `push` whose thrown error is caught by the caller: on error the queue
is exactly as it was (the source throws before mutating `this.queue`). -/
def Queue.tryPush (q : Queue) (run : JSArg TaskBody)
    (complete : Option (JSArg CompleteFn)) (label : Option String) : Queue :=
  match q.push run complete label with
  | .ok q2 => q2
  | .error _ => q

/-- `Queue.prototype.pop()`: removes and returns the task at the tail. -/
def Queue.pop (q : Queue) : Queue × Option Task :=
  ({ q with queue := q.queue.dropLast }, q.queue.getLast?)

/-- `Queue.prototype.shift()`: removes and returns the task at the head. -/
def Queue.shift (q : Queue) : Queue × Option Task :=
  ({ q with queue := q.queue.tail }, q.queue.head?)

/-- `Queue.prototype.empty()`: `while (this.queue.pop());` — Task objects are
always truthy, so this removes every pending task. -/
def Queue.empty (q : Queue) : Queue := { q with queue := [] }

/-- `Queue.prototype.length()`: the number of pending tasks. -/
def Queue.length (q : Queue) : Nat := q.queue.length

/-- Observable executor events: a task body dispatched, a completion policy
evaluated with `(err, res)`, and the `stop` helper delivering
`onStop(reason, state, err, res)`. -/
inductive Event where
  | taskRun (tid : Nat)
  | policy (tid : Nat) (err res : JSVal)
  | stop (reason : String) (st err res : JSVal)
deriving DecidableEq, Repr

/-- `Queue.prototype.run(state, onStop)` on the pending task list.  If the
queue is empty, `stop('emptied')` fires, so `onStop` receives `undefined`
for both `err` and `res`.  Otherwise the head task is shifted off and
dispatched; its listener is registered with `once`, so only the first signal
is observed.  If the policy result `=== false`, `stop('stopped', err, res)`
fires and the chain halts; otherwise `run` recurses on the remaining tasks.
A body that never signals leaves the chain suspended forever: no further
event occurs.  Returns the remaining pending list and the event trace. -/
def runList : List Task → JSVal → List Task × List Event
  | [], st => ([], [Event.stop "emptied" st JSVal.vUndefined JSVal.vUndefined])
  | t :: rest, st =>
    match t.run st with
    | [] => (rest, [Event.taskRun t.tid])
    | (err, res) :: _ =>
      if jsIsFalse (t.complete st err res) then
        (rest, [Event.taskRun t.tid, Event.policy t.tid err res,
                Event.stop "stopped" st err res])
      else
        let r := runList rest st
        (r.1, Event.taskRun t.tid :: Event.policy t.tid err res :: r.2)

/-- `Queue.prototype.run` at the `Queue` level. -/
def Queue.run (q : Queue) (st : JSVal) : Queue × List Event :=
  let r := runList q.queue st
  ({ q with queue := r.1 }, r.2)

/-- The queue operations a caller can perform. -/
inductive Op where
  | push (run : JSArg TaskBody) (complete : Option (JSArg CompleteFn)) (label : Option String)
  | pop
  | shift
  | empty
  | run (st : JSVal)

/-- Apply one operation, returning the new queue and the trace of execution
events the operation caused (`pop`, `shift` and `empty` are pure container
operations: their code contains no call to a task body or policy). -/
def applyOp (q : Queue) : Op → Queue × List Event
  | .push r c l => (q.tryPush r c l, [])
  | .pop => ((q.pop).1, [])
  | .shift => ((q.shift).1, [])
  | .empty => (q.empty, [])
  | .run st => q.run st

/-- Apply a sequence of operations. -/
def applyOps (q : Queue) (ops : List Op) : Queue :=
  ops.foldl (fun acc op => (applyOp acc op).1) q

/-- Task ids of the body-dispatch events in a trace, in order. -/
def taskRunTids : List Event → List Nat
  | [] => []
  | .taskRun i :: evs => i :: taskRunTids evs
  | .policy _ _ _ :: evs => taskRunTids evs
  | .stop _ _ _ _ :: evs => taskRunTids evs

/-- Task ids of the policy-evaluation events in a trace, in order. -/
def policyTids : List Event → List Nat
  | [] => []
  | .taskRun _ :: evs => policyTids evs
  | .policy i _ _ :: evs => i :: policyTids evs
  | .stop _ _ _ _ :: evs => policyTids evs

/-- Reasons of the `onStop` deliveries in a trace, in order. -/
def stopReasons : List Event → List String
  | [] => []
  | .taskRun _ :: evs => stopReasons evs
  | .policy _ _ _ :: evs => stopReasons evs
  | .stop r _ _ _ :: evs => r :: stopReasons evs

/-- Well-formedness of a queue: pending ids strictly increase from head to
tail (hence unique), and every pending id is at most the id counter (so the
id a future `push` assigns is fresh: ids are never reused). -/
def Queue.WellFormed (q : Queue) : Prop :=
  (q.queue.map Task.tid).Pairwise (· < ·) ∧ ∀ i ∈ q.queue.map Task.tid, i ≤ q.tid

/-- Whether a list of ids is a run of consecutive integers (no gaps). -/
def consecutiveIds : List Nat → Bool
  | [] => true
  | [_] => true
  | a :: b :: rest => (b = a + 1) && consecutiveIds (b :: rest)

mutual

/-- The continuation callback of `next` in `src/queue.js`, processing the
signals a body emits.  The body hands each signal to the bare callback
`function(err, res) {...}` — there is no once-guard — so every signal
triggers a policy evaluation, and every policy result other than strict
`false` re-enters `next` on the current queue.  `fuel` bounds the recursion
depth (the source recursion terminates because bodies emit finitely many
signals; exhausted fuel returns the queue unchanged with no events). -/
def nextSignals (fuel : Nat) (t : Task) (sigs : List (JSVal × JSVal))
    (q : List Task) (st : JSVal) : List Task × List Event :=
  match fuel, sigs with
  | _, [] => (q, [])
  | 0, _ :: _ => (q, [])
  | f + 1, (e, r) :: more =>
    if jsIsFalse (t.complete st e r) then
      let k := nextSignals f t more q st
      (k.1, Event.policy t.tid e r :: k.2)
    else
      let k1 := nextList f q st
      let k2 := nextSignals f t more k1.1 st
      (k2.1, Event.policy t.tid e r :: (k1.2 ++ k2.2))

/-- `next(state)` from `src/queue.js` on the pending list: if the queue is
non-empty, shift off the head task and invoke its body with the continuation
callback.  (This variant has no `onStop` and emits no stop event.) -/
def nextList (fuel : Nat) (q : List Task) (st : JSVal) : List Task × List Event :=
  match fuel, q with
  | 0, q2 => (q2, [])
  | _ + 1, [] => ([], [])
  | f + 1, t :: rest =>
    let r := nextSignals f t (t.run st) rest st
    (r.1, Event.taskRun t.tid :: r.2)

end

/-! ### Concrete tasks and operation sequences used as test inputs -/

/-- A body that signals once with no error and result `1`. -/
def sigOk1 : TaskBody := fun _ => [(JSVal.vNull, JSVal.vNum 1)]

/-- A body that signals once with no error and result `2`. -/
def sigOk2 : TaskBody := fun _ => [(JSVal.vNull, JSVal.vNum 2)]

/-- A body that signals once with the error object `{error:"x"}` (modelled by
reference `vObj 0`) and a null result. -/
def sigErr : TaskBody := fun _ => [(JSVal.vObj 0, JSVal.vNull)]

/-- A body that signals twice (violating the completion contract). -/
def sigTwice : TaskBody :=
  fun _ => [(JSVal.vNull, JSVal.vNum 1), (JSVal.vNull, JSVal.vNum 2)]

/-- The completion policy of the demo scripts: `return (err ? false : true)`,
restricted to null-vs-object errors. -/
def stopOnError : CompleteFn :=
  fun _ e _ => JSVal.vBool (e = JSVal.vNull)

/-- A policy returning the falsy-but-not-`false` value `0`. -/
def zeroComplete : CompleteFn := fun _ _ _ => JSVal.vNum 0

/-- Concrete task with id 1, default policy, one clean signal. -/
def taskA : Task :=
  { tid := 1, label := "A", run := sigOk1, complete := defaultComplete }

/-- Concrete task with id 2, default policy, one clean signal. -/
def taskB : Task :=
  { tid := 2, label := "B", run := sigOk2, complete := defaultComplete }

/-- Concrete task with id 1, default policy, whose signal carries an error. -/
def taskAErr : Task :=
  { tid := 1, label := "A", run := sigErr, complete := defaultComplete }

/-- Concrete task with id 3 whose signal carries an error and whose policy
stops on errors. -/
def taskStop : Task :=
  { tid := 3, label := "C", run := sigErr, complete := stopOnError }

/-- Concrete task with id 7 whose policy returns `0` (falsy, not `false`). -/
def taskZero : Task :=
  { tid := 7, label := "z", run := sigOk1, complete := zeroComplete }

/-- Concrete task with id 1 whose body signals twice. -/
def taskTwice : Task :=
  { tid := 1, label := "t", run := sigTwice, complete := defaultComplete }

/-- The queue of the spec scenario for the default policy: push a task whose
signal carries an error, then a clean task, neither with a policy supplied. -/
def qAB : Queue :=
  (Queue.create.tryPush (JSArg.fn sigErr) none none).tryPush (JSArg.fn sigOk2) none none

/-- Three pushes, a tail `pop`, then another push: the surviving ids are
`[1, 2, 4]`. -/
def gapOps : List Op :=
  [Op.push (JSArg.fn sigOk1) none none,
   Op.push (JSArg.fn sigOk1) none none,
   Op.push (JSArg.fn sigOk1) none none,
   Op.pop,
   Op.push (JSArg.fn sigOk1) none none]

/-! ### Basic lemmas about the embedded executor -/

/-- A JS value is strictly equal to `false` exactly when it is the boolean
`false`; every other value (including other falsy values) is not. -/
theorem jsIsFalse_iff (v : JSVal) : jsIsFalse v = true ↔ v = JSVal.vBool false := by
  cases v
  case vBool b => cases b <;> simp [jsIsFalse]
  all_goals simp [jsIsFalse]

/-- The pending list left by `run` is a suffix of the input pending list:
the loop only ever removes from the head. -/
theorem runList_suffix (tasks : List Task) (st : JSVal) :
    (runList tasks st).1 <:+ tasks := by
  induction tasks with
  | nil => simp [runList]
  | cons t rest ih =>
    simp only [runList]
    cases h : t.run st with
    | nil => exact List.suffix_cons t rest
    | cons s ss =>
      obtain ⟨e, r⟩ := s
      cases hf : jsIsFalse (t.complete st e r)
      · simpa [hf] using ih.trans (List.suffix_cons t rest)
      · simp only [hf, if_true]
        exact List.suffix_cons t rest

/-- Every body dispatch in a `run` trace belongs to a distinct pending task,
in order: the dispatched ids form a sublist of the pending ids. -/
theorem taskRunTids_runList (tasks : List Task) (st : JSVal) :
    List.Sublist (taskRunTids (runList tasks st).2) (tasks.map Task.tid) := by
  induction tasks with
  | nil => simp [runList, taskRunTids]
  | cons t rest ih =>
    simp only [runList]
    cases h : t.run st with
    | nil => simp [taskRunTids]
    | cons s ss =>
      obtain ⟨e, r⟩ := s
      cases hf : jsIsFalse (t.complete st e r)
      · simpa [hf, taskRunTids] using ih.cons₂ t.tid
      · simp [hf, taskRunTids]

/-- Every policy evaluation in a `run` trace belongs to a distinct pending
task, in order: the evaluated ids form a sublist of the pending ids. -/
theorem policyTids_runList (tasks : List Task) (st : JSVal) :
    List.Sublist (policyTids (runList tasks st).2) (tasks.map Task.tid) := by
  induction tasks with
  | nil => simp [runList, policyTids]
  | cons t rest ih =>
    simp only [runList]
    cases h : t.run st with
    | nil => simp [policyTids]
    | cons s ss =>
      obtain ⟨e, r⟩ := s
      cases hf : jsIsFalse (t.complete st e r)
      · simpa [hf, policyTids] using ih.cons₂ t.tid
      · simp [hf, policyTids]

/-- Under the default completion policy, the run loop dispatches every
pending task whose body signals, in order: the dispatched ids are exactly
the pending ids. -/
theorem runList_default_all_run (tasks : List Task) (st : JSVal)
    (hc : ∀ t ∈ tasks, t.complete = defaultComplete)
    (hs : ∀ t ∈ tasks, t.run st ≠ []) :
    taskRunTids (runList tasks st).2 = tasks.map Task.tid := by
  revert hc hs
  induction tasks with
  | nil => intro hc hs; simp [runList, taskRunTids]
  | cons t rest ih =>
    intro hc hs
    simp only [runList]
    cases h : t.run st with
    | nil => exact absurd h (hs t (by simp))
    | cons s ss =>
      obtain ⟨e, r⟩ := s
      have hct : t.complete = defaultComplete := hc t (by simp)
      have hfalse : jsIsFalse (t.complete st e r) = false := by
        rw [hct]; rfl
      have ihr := ih (fun u hu => hc u (List.mem_cons_of_mem t hu))
        (fun u hu => hs u (List.mem_cons_of_mem t hu))
      simp [hfalse, taskRunTids, ihr]

/-- A successful `push` appends exactly one task, carrying the incremented
id counter as its id. -/
theorem tryPush_fn_queue (q : Queue) (body : TaskBody)
    (c : Option (JSArg CompleteFn)) (l : Option String) :
    (q.tryPush (JSArg.fn body) c l).queue.map Task.tid =
      q.queue.map Task.tid ++ [q.tid + 1] ∧
    (q.tryPush (JSArg.fn body) c l).tid = q.tid + 1 := by
  constructor
  · simp [Queue.tryPush, Queue.push]
  · rfl

/-- Every single queue operation preserves well-formedness of the id
sequence. -/
theorem wellFormed_applyOp (q : Queue) (op : Op) (h : q.WellFormed) :
    (applyOp q op).1.WellFormed := by
  obtain ⟨hp, hb⟩ := h
  cases op with
  | push r c l =>
    cases r with
    | nonFn v => exact ⟨hp, hb⟩
    | fn body =>
      obtain ⟨hque, htid⟩ := tryPush_fn_queue q body c l
      constructor
      · rw [show (applyOp q (Op.push (JSArg.fn body) c l)).1 = q.tryPush (JSArg.fn body) c l from rfl, hque]
        rw [List.pairwise_append]
        refine ⟨hp, List.pairwise_singleton _ _, ?_⟩
        intro a ha b hbm
        rw [List.mem_singleton] at hbm
        subst hbm
        exact Nat.lt_succ_of_le (hb a ha)
      · intro i hi
        rw [show (applyOp q (Op.push (JSArg.fn body) c l)).1 = q.tryPush (JSArg.fn body) c l from rfl, hque] at hi
        rw [show (applyOp q (Op.push (JSArg.fn body) c l)).1 = q.tryPush (JSArg.fn body) c l from rfl, htid]
        rcases List.mem_append.mp hi with h1 | h1
        · exact le_trans (hb i h1) (Nat.le_succ _)
        · rw [List.mem_singleton] at h1
          subst h1
          exact le_refl _
  | pop =>
    have hsub : List.Sublist (q.queue.dropLast.map Task.tid) (q.queue.map Task.tid) :=
      (List.dropLast_sublist q.queue).map Task.tid
    exact ⟨List.Pairwise.sublist hsub hp, fun i hi => hb i (hsub.subset hi)⟩
  | shift =>
    have hsub : List.Sublist (q.queue.tail.map Task.tid) (q.queue.map Task.tid) :=
      (List.tail_sublist q.queue).map Task.tid
    exact ⟨List.Pairwise.sublist hsub hp, fun i hi => hb i (hsub.subset hi)⟩
  | empty => exact ⟨by simp [applyOp, Queue.empty], by simp [applyOp, Queue.empty]⟩
  | run st =>
    have hsub : List.Sublist ((runList q.queue st).1.map Task.tid) (q.queue.map Task.tid) :=
      ((runList_suffix q.queue st).sublist).map Task.tid
    exact ⟨List.Pairwise.sublist hsub hp, fun i hi => hb i (hsub.subset hi)⟩

/-- Every sequence of queue operations preserves well-formedness. -/
theorem wellFormed_applyOps (ops : List Op) (q : Queue) (h : q.WellFormed) :
    (applyOps q ops).WellFormed := by
  induction ops generalizing q with
  | nil => exact h
  | cons op rest ih => exact ih ((applyOp q op).1) (wellFormed_applyOp q op h)

/-! ### Claim theorems -/

/-- C2: for every invocation of `run(state, onStop)` whose pending tasks all
signal completion, `onStop` is delivered exactly once over the whole chain,
and its reason is either `'stopped'` or `'emptied'` (the stop-reason list of
the trace is exactly `["stopped"]` or exactly `["emptied"]`). -/
theorem run_onStop_once_valid_reason (tasks : List Task) (st : JSVal)
    (hsig : ∀ t ∈ tasks, t.run st ≠ []) :
    stopReasons (runList tasks st).2 = ["stopped"] ∨
    stopReasons (runList tasks st).2 = ["emptied"] := by
  revert hsig
  induction tasks with
  | nil => intro hsig; right; simp [runList, stopReasons]
  | cons t rest ih =>
    intro hsig
    simp only [runList]
    cases h : t.run st with
    | nil => exact absurd h (hsig t (by simp))
    | cons s ss =>
      obtain ⟨e, r⟩ := s
      cases hf : jsIsFalse (t.complete st e r)
      · have := ih (fun u hu => hsig u (List.mem_cons_of_mem t hu))
        simpa [hf, stopReasons] using this
      · left; simp [hf, stopReasons]

/-- Witness for C2 at the concrete one-task queue whose policy stops. -/
theorem run_onStop_once_valid_reason_witness :
    stopReasons (runList [taskStop] (JSVal.vNum 0)).2 = ["stopped"] ∨
    stopReasons (runList [taskStop] (JSVal.vNum 0)).2 = ["emptied"] :=
  run_onStop_once_valid_reason [taskStop] (JSVal.vNum 0)
    (by intro t ht; rw [List.mem_singleton] at ht; subst ht; decide)

/-- C3: for every sequence of tasks registered with the default completion
policy whose signals all carry a null error, `run` dispatches each body
exactly once, in push order (the dispatched ids are exactly the pending ids,
head first, without repetition). -/
theorem run_fifo_default_policy (tasks : List Task) (st : JSVal)
    (hc : ∀ t ∈ tasks, t.complete = defaultComplete)
    (hs : ∀ t ∈ tasks, ∃ res sigs, t.run st = (JSVal.vNull, res) :: sigs)
    (hnd : (tasks.map Task.tid).Nodup) :
    taskRunTids (runList tasks st).2 = tasks.map Task.tid ∧
    (taskRunTids (runList tasks st).2).Nodup := by
  have key : taskRunTids (runList tasks st).2 = tasks.map Task.tid :=
    runList_default_all_run tasks st hc
      (by
        intro t ht
        obtain ⟨res, sigs, hrun⟩ := hs t ht
        simp [hrun])
  exact ⟨key, key ▸ hnd⟩

/-- Witness for C3 at the concrete two-task queue `[taskA, taskB]`. -/
theorem run_fifo_default_policy_witness :
    taskRunTids (runList [taskA, taskB] (JSVal.vNum 0)).2 =
      ([taskA, taskB].map Task.tid) ∧
    (taskRunTids (runList [taskA, taskB] (JSVal.vNum 0)).2).Nodup :=
  run_fifo_default_policy [taskA, taskB] (JSVal.vNum 0)
    (by
      intro t ht
      rcases List.mem_cons.mp ht with h | h
      · subst h; rfl
      · rw [List.mem_singleton] at h; subst h; rfl)
    (by
      intro t ht
      rcases List.mem_cons.mp ht with h | h
      · subst h; exact ⟨JSVal.vNum 1, [], rfl⟩
      · rw [List.mem_singleton] at h; subst h; exact ⟨JSVal.vNum 2, [], rfl⟩)
    (by decide)

/-- C4: if the completion policy of the k-th executed task returns `false`
(strictly), the executor delivers `onStop('stopped', state, err, res)` with
that task's error and result, dispatches no further task, and leaves exactly
the untouched tasks pending, in their original order, so `length()` is
N − k. -/
theorem run_stops_at_policy_false (pre : List Task) (t : Task) (post : List Task)
    (st err res : JSVal)
    (hpre : ∀ u ∈ pre, ∃ e r ss,
      u.run st = (e, r) :: ss ∧ jsIsFalse (u.complete st e r) = false)
    (ht : ∃ ss, t.run st = (err, res) :: ss)
    (hf : jsIsFalse (t.complete st err res) = true) :
    (runList (pre ++ t :: post) st).1 = post ∧
    (runList (pre ++ t :: post) st).1.length =
      (pre ++ t :: post).length - (pre.length + 1) ∧
    ∃ evs, (runList (pre ++ t :: post) st).2 = evs ++ [Event.stop "stopped" st err res] ∧
      taskRunTids evs = (pre ++ [t]).map Task.tid := by
  have main : (runList (pre ++ t :: post) st).1 = post ∧
      ∃ evs, (runList (pre ++ t :: post) st).2 =
          evs ++ [Event.stop "stopped" st err res] ∧
        taskRunTids evs = (pre ++ [t]).map Task.tid := by
    revert hpre
    induction pre with
    | nil =>
      intro hpre
      obtain ⟨ss, hrun⟩ := ht
      refine ⟨by simp [runList, hrun, hf], ?_⟩
      exact ⟨[Event.taskRun t.tid, Event.policy t.tid err res],
        by simp [runList, hrun, hf], by simp [taskRunTids]⟩
    | cons u pre2 ih =>
      intro hpre
      obtain ⟨e, r, ss, hrun, hcont⟩ := hpre u (by simp)
      obtain ⟨hq, evs, htr, htids⟩ := ih (fun w hw => hpre w (List.mem_cons_of_mem u hw))
      refine ⟨by simp [runList, hrun, hcont, hq], ?_⟩
      refine ⟨Event.taskRun u.tid :: Event.policy u.tid e r :: evs, ?_, ?_⟩
      · simp [runList, hrun, hcont, htr]
      · simp [taskRunTids, htids]
  refine ⟨main.1, ?_, main.2⟩
  rw [main.1]
  simp only [List.length_append, List.length_cons]
  omega

/-- Witness for C4: queue `[taskA, taskStop, taskB]`, stopping at the second
task. -/
theorem run_stops_at_policy_false_witness :
    (runList ([taskA] ++ taskStop :: [taskB]) (JSVal.vNum 0)).1 = [taskB] ∧
    (runList ([taskA] ++ taskStop :: [taskB]) (JSVal.vNum 0)).1.length =
      ([taskA] ++ taskStop :: [taskB]).length - ([taskA].length + 1) ∧
    ∃ evs, (runList ([taskA] ++ taskStop :: [taskB]) (JSVal.vNum 0)).2 =
        evs ++ [Event.stop "stopped" (JSVal.vNum 0) (JSVal.vObj 0) JSVal.vNull] ∧
      taskRunTids evs = ([taskA] ++ [taskStop]).map Task.tid :=
  run_stops_at_policy_false [taskA] taskStop [taskB]
    (JSVal.vNum 0) (JSVal.vObj 0) JSVal.vNull
    (by
      intro u hu
      rw [List.mem_singleton] at hu; subst hu
      exact ⟨JSVal.vNull, JSVal.vNum 1, [], rfl, rfl⟩)
    ⟨[], rfl⟩
    (by decide)

/-- C1 counterexample: push A then B with no completion policy supplied,
A's signal carrying the non-null error `vObj 0`.  The run trace shows B's
body IS dispatched, the single `onStop` delivery has reason `'emptied'`
(not `'stopped'`), and `length()` afterwards is 0 (not 1). -/
theorem default_policy_error_counterexample :
    (qAB.run (JSVal.vNum 0)).2 =
      [Event.taskRun 1, Event.policy 1 (JSVal.vObj 0) JSVal.vNull,
       Event.taskRun 2, Event.policy 2 JSVal.vNull (JSVal.vNum 2),
       Event.stop "emptied" (JSVal.vNum 0) JSVal.vUndefined JSVal.vUndefined] ∧
    (qAB.run (JSVal.vNum 0)).1.length = 0 :=
  ⟨rfl, rfl⟩

/-- C1 (amended): the default completion policy always returns `true`, so a
non-null error in A's signal does not stop the chain: B's body is dispatched,
the single `onStop` delivery has reason `'emptied'`, and no task remains
pending. -/
theorem default_policy_continues_on_error (A B : Task) (st err res e2 r2 : JSVal)
    (hA : A.complete = defaultComplete) (hB : B.complete = defaultComplete)
    (hra : ∃ s, A.run st = (err, res) :: s)
    (hrb : ∃ s, B.run st = (e2, r2) :: s)
    (_herr : err ≠ JSVal.vNull) :
    runList [A, B] st =
      ([], [Event.taskRun A.tid, Event.policy A.tid err res,
            Event.taskRun B.tid, Event.policy B.tid e2 r2,
            Event.stop "emptied" st JSVal.vUndefined JSVal.vUndefined]) := by
  obtain ⟨sA, hA1⟩ := hra
  obtain ⟨sB, hB1⟩ := hrb
  have fA : jsIsFalse (A.complete st err res) = false := by rw [hA]; rfl
  have fB : jsIsFalse (B.complete st e2 r2) = false := by rw [hB]; rfl
  simp [runList, hA1, hB1, fA, fB]

/-- Witness for the amended C1 at the concrete tasks `taskAErr`, `taskB`. -/
theorem default_policy_continues_on_error_witness :
    runList [taskAErr, taskB] (JSVal.vNum 0) =
      ([], [Event.taskRun 1, Event.policy 1 (JSVal.vObj 0) JSVal.vNull,
            Event.taskRun 2, Event.policy 2 JSVal.vNull (JSVal.vNum 2),
            Event.stop "emptied" (JSVal.vNum 0) JSVal.vUndefined JSVal.vUndefined]) :=
  default_policy_continues_on_error taskAErr taskB (JSVal.vNum 0)
    (JSVal.vObj 0) JSVal.vNull JSVal.vNull (JSVal.vNum 2)
    rfl rfl ⟨[], rfl⟩ ⟨[], rfl⟩ (by decide)

/-- C5 counterexample: `run` on the fresh empty queue delivers
`onStop('emptied', state, undefined, undefined)` —  the event carrying
`null` for error and result, which the claim asserts, does not occur. -/
theorem run_emptied_args_counterexample :
    (Queue.create.run (JSVal.vStr "s")).2 =
      [Event.stop "emptied" (JSVal.vStr "s") JSVal.vUndefined JSVal.vUndefined] ∧
    Event.stop "emptied" (JSVal.vStr "s") JSVal.vNull JSVal.vNull ∉
      (Queue.create.run (JSVal.vStr "s")).2 := by
  exact ⟨rfl, by decide⟩

/-- C5 (amended): calling `run(state, onStop)` on an empty queue dispatches
no task body and delivers `onStop` exactly once with reason `'emptied'`, the
given state, and `undefined` for both error and result; the queue is
unchanged (still empty, reusable later). -/
theorem run_empty_queue (q : Queue) (st : JSVal) (h : q.queue = []) :
    q.run st = (q, [Event.stop "emptied" st JSVal.vUndefined JSVal.vUndefined]) := by
  obtain ⟨qs, n⟩ := q
  simp only at h
  subst h
  rfl

/-- Witness for the amended C5 at the fresh queue. -/
theorem run_empty_queue_witness :
    Queue.create.run (JSVal.vNum 5) =
      (Queue.create,
        [Event.stop "emptied" (JSVal.vNum 5) JSVal.vUndefined JSVal.vUndefined]) :=
  run_empty_queue Queue.create (JSVal.vNum 5) rfl

/-- C6: pushing any non-invocable body fails synchronously with the error
`"A task must have an 'run' function"` before any insertion; the queue (and
hence `length()` and the pending sequence) is exactly what it was. -/
theorem push_non_invocable_rejected (q : Queue) (v : JSVal)
    (c : Option (JSArg CompleteFn)) (l : Option String) :
    q.push (JSArg.nonFn v) c l =
      Except.error "A task must have an 'run' function" ∧
    q.tryPush (JSArg.nonFn v) c l = q ∧
    (q.tryPush (JSArg.nonFn v) c l).length = q.length :=
  ⟨rfl, rfl, rfl⟩

/-- C7 counterexample: in the plain-callback variant (`src/queue.js`), a
task whose body invokes the continuation callback twice triggers TWO policy
evaluations — the second signal is not ignored. -/
theorem double_signal_counterexample :
    (nextList 5 [taskTwice] (JSVal.vNum 0)).2 =
      [Event.taskRun 1, Event.policy 1 JSVal.vNull (JSVal.vNum 1),
       Event.policy 1 JSVal.vNull (JSVal.vNum 2)] ∧
    policyTids (nextList 5 [taskTwice] (JSVal.vNum 0)).2 = [1, 1] :=
  ⟨rfl, rfl⟩

/-- C7 (amended): in the event-emitter executors, whose completion listener
is registered with `once`, the first signal wins — at most one policy
evaluation and at most one body dispatch occur per task id, whatever extra
signals a body emits; the plain-callback variant in `src/queue.js` has no
such guard. -/
theorem emitter_policy_at_most_once (tasks : List Task) (st : JSVal) (i : Nat)
    (hnd : (tasks.map Task.tid).Nodup) :
    (policyTids (runList tasks st).2).count i ≤ 1 ∧
    (taskRunTids (runList tasks st).2).count i ≤ 1 := by
  have h1 : (policyTids (runList tasks st).2).Nodup :=
    List.Nodup.sublist (policyTids_runList tasks st) hnd
  have h2 : (taskRunTids (runList tasks st).2).Nodup :=
    List.Nodup.sublist (taskRunTids_runList tasks st) hnd
  exact ⟨List.nodup_iff_count_le_one.mp h1 i, List.nodup_iff_count_le_one.mp h2 i⟩

/-- Witness for the amended C7 at the concrete queue `[taskA, taskB]`. -/
theorem emitter_policy_at_most_once_witness :
    (policyTids (runList [taskA, taskB] (JSVal.vNum 3)).2).count 1 ≤ 1 ∧
    (taskRunTids (runList [taskA, taskB] (JSVal.vNum 3)).2).count 1 ≤ 1 :=
  emitter_policy_at_most_once [taskA, taskB] (JSVal.vNum 3) 1 (by decide)

/-- C8 counterexample: three pushes, a tail `pop`, then another push leave
the pending ids `[1, 2, 4]` — not a run of consecutive ids. -/
theorem id_gap_counterexample :
    (applyOps Queue.create gapOps).queue.map Task.tid = [1, 2, 4] ∧
    consecutiveIds ((applyOps Queue.create gapOps).queue.map Task.tid) = false :=
  ⟨rfl, rfl⟩

/-- C8 (amended): across every sequence of push / pop / shift / run / empty
operations from a fresh queue, the pending ids are strictly increasing
(hence unique, with no duplicates) and never exceed the id counter, so each
newly assigned id is fresh — ids are never reused.  The pending sequence
may, however, contain gaps (e.g. after a tail pop followed by a push). -/
theorem queue_ids_wellFormed (ops : List Op) :
    (applyOps Queue.create ops).WellFormed :=
  wellFormed_applyOps ops Queue.create ⟨List.Pairwise.nil, by simp [Queue.create]⟩

/-- C9: `empty` (clear) removes all pending tasks, so `length()` is 0
immediately afterwards, and neither `empty` nor `pop` (popTail) nor `shift`
(popHead) causes any execution event: no task body is dispatched and no
completion policy is evaluated. -/
theorem container_ops_pure (q : Queue) :
    (applyOp q Op.empty).1.length = 0 ∧
    (applyOp q Op.empty).2 = [] ∧
    (applyOp q Op.pop).2 = [] ∧
    (applyOp q Op.shift).2 = [] :=
  ⟨rfl, rfl, rfl, rfl⟩

/-- C10: the run loop stops only when the completion policy returns the
boolean `false` exactly: for every other return value (including the falsy
values `0`, `null`, `undefined`, `""`), the loop continues with the next
task instead of stopping. -/
theorem run_continues_unless_strict_false (t : Task) (rest : List Task)
    (st err res v : JSVal)
    (hsig : ∃ ss, t.run st = (err, res) :: ss)
    (hv : t.complete st err res = v)
    (hne : v ≠ JSVal.vBool false) :
    runList (t :: rest) st =
      ((runList rest st).1,
        Event.taskRun t.tid :: Event.policy t.tid err res ::
          (runList rest st).2) := by
  obtain ⟨ss, hrun⟩ := hsig
  have hfalse : jsIsFalse (t.complete st err res) = false := by
    rw [hv]
    cases hj : jsIsFalse v
    · rfl
    · exact absurd ((jsIsFalse_iff v).mp hj) hne
  simp [runList, hrun, hfalse]

/-- Witness for C10 at a task whose policy returns the falsy value `0`. -/
theorem run_continues_unless_strict_false_witness :
    runList [taskZero] (JSVal.vNum 0) =
      ((runList [] (JSVal.vNum 0)).1,
        Event.taskRun 7 :: Event.policy 7 JSVal.vNull (JSVal.vNum 1) ::
          (runList [] (JSVal.vNum 0)).2) :=
  run_continues_unless_strict_false taskZero [] (JSVal.vNum 0) JSVal.vNull
    (JSVal.vNum 1) (JSVal.vNum 0) ⟨[], rfl⟩ rfl (by decide)

end WorkQueue
